import Mathlib

/-!
# Verification of the game-of-life terminal simulator

A shallow embedding of `src/main.go` (package `main` of the
`game_of_life` repository).  The Go program keeps the grid in a
`map[int]map[int]byte`; a Go map read returns the zero value `0` for a
missing key, so a map is modelled extensionally by the set of row keys
present, the set of cell keys present, and the total read function.
Machine arithmetic: all quantities involved (`int` loop indices, the
`byte` cell states `0/1`, the `time.Duration` delay, the generation
counter) stay far below the 64-bit overflow bound on every reachable
run, so they are modelled as unbounded `Int`/`Nat`.
-/

/-- A cell state as stored in the Go `byte` cells: `0` dead, `1` alive. -/
abbrev Cell := Nat

/-- A Go `map[int]map[int]byte` viewed extensionally: which row keys are
present, which cell keys are present, and the value a read returns
(Go yields the zero value `0` for a missing key). -/
structure GoField where
  hasRow : Int → Bool
  hasCell : Int → Int → Bool
  get : Int → Int → Cell

/-- The Go assignment `m[y][x] = v`.  When row `y` is missing, the Go
program would panic (assignment to a `nil` inner map); every call site in
the program writes into rows allocated by `makeNewMap`, so that case is
modelled as a no-op and theorems about `reverseCell` carry a row-present
hypothesis. -/
def fieldSet (f : GoField) (y x : Int) (v : Cell) : GoField :=
  if f.hasRow y then
    { hasRow := f.hasRow
      hasCell := fun y' x' => decide (y' = y ∧ x' = x) || f.hasCell y' x'
      get := fun y' x' => if y' = y ∧ x' = x then v else f.get y' x' }
  else f

/-- `makeNewMap(w, h)` from the source: outer keys `0 ≤ i < h` are
allocated with empty inner maps; every read defaults to `0`.  The width
argument is only a Go capacity hint and is otherwise unused. -/
def makeNewMap (w h : Int) : GoField :=
  { hasRow := fun y => decide (0 ≤ y ∧ y < h)
    hasCell := fun _ _ => false
    get := fun _ _ => 0 }

/-- The `GameOfLife` struct of the source.  The `screen` and `stop`
fields are handles to the excluded terminal backend and the termination
channel; the drawing side effects that matter to the claims (the cells
repainted by `tick`) are returned explicitly by the embedded `tick`. -/
structure GameOfLife where
  width : Int
  height : Int
  evolution : Bool
  delay : Int
  field : GoField
  generation : Int
  stateWidth : Int

/-- The index list visited by a Go loop `for i := 0; i < n; i++`. -/
def intRange (n : Int) : List Int :=
  (List.range n.toNat).map (Nat.cast : Nat → Int)

/-- Column wrapping as written in `nextCellState`: only the single-step
overshoots `nx < 0` and `nx == width` are folded back; `width + 1` is
left as is (it can arise for `x = width`, see `tick`). -/
def wrapX (game : GameOfLife) (nx : Int) : Int :=
  if nx < 0 then game.width - 1 else if nx = game.width then 0 else nx

/-- Row wrapping as written in `nextCellState`. -/
def wrapY (game : GameOfLife) (ny : Int) : Int :=
  if ny < 0 then game.height - 1 else if ny = game.height then 0 else ny

/-- The offsets of the two nested `for i/j := -1; _ <= 1; _++` loops of
`nextCellState`. -/
def offs : List Int := [-1, 0, 1]

/-- `nextCellState(x, y)`: sums the whole 3×3 block around `(x, y)` —
the offset `(0, 0)`, i.e. the cell itself, is included — with wrapped
indices, then: sum `3` ⇒ `1`, sum `4` ⇒ the current state, else `0`. -/
def nextCellState (game : GameOfLife) (x y : Int) : Cell :=
  let neigbors :=
    (offs.map fun i =>
      (offs.map fun j =>
        game.field.get (wrapY game (y + j)) (wrapX game (x + i))).sum).sum
  if neigbors = 3 then 1
  else if neigbors = 4 then game.field.get y x
  else 0

/-- One `tick` pass.  Returns the updated game together with the list of
grid coordinates `(x, y)` repainted via `drawCell`.  Note the source's
inner loop bound `x <= game.width`: column `game.width` is visited too. -/
def tick (game : GameOfLife) : GameOfLife × List (Int × Int) :=
  let result := (intRange game.height).foldl (fun acc y =>
    (intRange (game.width + 1)).foldl (fun acc2 x =>
      let nm := fieldSet acc2.1 y x (nextCellState game x y)
      if nm.get y x ≠ game.field.get y x then (nm, acc2.2 ++ [(x, y)])
      else (nm, acc2.2)) acc)
    (makeNewMap game.width game.height, [])
  ({ game with field := result.1, generation := game.generation + 1 }, result.2)

/-- `reverseCell(x, y)`: `game.field[y][x] ^= 1` followed by a redraw of
that one cell. -/
def reverseCell (game : GameOfLife) (x y : Int) : GameOfLife :=
  { game with field := fieldSet game.field y x (game.field.get y x ^^^ 1) }

/-- `switchMode`: flips the play/pause flag. -/
def switchMode (game : GameOfLife) : GameOfLife :=
  if game.evolution then { game with evolution := false }
  else { game with evolution := true }

/-- `increaseDelay`: `game.delay += 50`. -/
def increaseDelay (game : GameOfLife) : GameOfLife :=
  { game with delay := game.delay + 50 }

/-- `decreaseDelay`: subtract `50`, clamped below at `0`. -/
def decreaseDelay (game : GameOfLife) : GameOfLife :=
  let newDelay := game.delay - 50
  let newDelay := if newDelay < 0 then 0 else newDelay
  { game with delay := newDelay }

/-- One iteration step of the inner copy loop of `resize`: the running
state is the field built so far plus the `break` flag; a cell of row `y`
is copied from the old field, and the loop breaks once `x >= width`. -/
def copyStep (game : GameOfLife) (y : Int) (acc : GoField × Bool) (x : Int) :
    GoField × Bool :=
  if acc.2 then acc
  else (fieldSet acc.1 y x (game.field.get y x), decide (game.width ≤ x))

/-- The inner copy loop of `resize` over a given column list. -/
def copyLoop (game : GameOfLife) (y : Int) (f : GoField) (l : List Int) :
    GoField × Bool :=
  l.foldl (copyStep game y) (f, false)

/-- The inner loop of `resize` as in the source: columns
`for x := 0; x <= w; x++` (bound inclusive), breaking after the column
`x >= game.width` has been copied. -/
def resizeRow (game : GameOfLife) (w y : Int) (f : GoField) : GoField :=
  (copyLoop game y f (intRange (w + 1))).1

/-- One iteration step of the outer row loop of `resize`: rows at
`y >= game.height` break before copying anything. -/
def rowStep (game : GameOfLife) (w' : Int) (acc : GoField × Bool) (y : Int) :
    GoField × Bool :=
  if acc.2 then acc
  else if game.height ≤ y then (acc.1, true)
  else (resizeRow game w' y acc.1, false)

/-- The outer row loop of `resize` over a given row list. -/
def rowLoop (game : GameOfLife) (w' : Int) (f : GoField) (l : List Int) :
    GoField × Bool :=
  l.foldl (rowStep game w') (f, false)

/-- `resize(w, h)` from the source: pauses evolution, subtracts the
status-panel width from `w`, allocates a fresh map and copies the old
content through the two bounded loops above, then installs the new
dimensions and field.  The repaint side effects are not modelled (no
claim mentions them). -/
def resize (game : GameOfLife) (w h : Int) : GameOfLife :=
  let w' := w - game.stateWidth
  { game with
      evolution := false
      width := w'
      height := h
      field := (rowLoop game w' (makeNewMap w' h) (intRange h)).1 }

/-- `NewGame`: grid width is the terminal width minus the 10-column
status panel, grid height is the terminal height; `delay` starts at
`500`; `evolution` and `generation` start at their Go zero values. -/
def NewGame (screenW screenH : Int) : GameOfLife :=
  { width := screenW - 10
    height := screenH
    evolution := false
    delay := 500
    field := makeNewMap (screenW - 10) screenH
    generation := 0
    stateWidth := 10 }

/-- The `EventMouse` branch of `Start` for a `Button1` click at screen
position `(x, y)`: clicks inside the status margin (`x < stateWidth`)
are ignored, the rest toggle the cell at `(x - stateWidth, y)`. -/
def dispatchMouse (game : GameOfLife) (x y : Int) : GameOfLife :=
  if game.stateWidth ≤ x then reverseCell game (x - game.stateWidth) y
  else game

/-- The user-driven operations of the control loop, for stating
properties of operation sequences. -/
inductive GAction where
  | tickA : GAction
  | toggleA (x y : Int) : GAction
  | resizeA (w h : Int) : GAction
  | speedUp : GAction
  | speedDown : GAction
  | switchM : GAction
deriving DecidableEq

/-- Dispatch of one operation. -/
def applyAction (game : GameOfLife) : GAction → GameOfLife
  | .tickA => (tick game).1
  | .toggleA x y => reverseCell game x y
  | .resizeA w h => resize game w h
  | .speedUp => increaseDelay game
  | .speedDown => decreaseDelay game
  | .switchM => switchMode game

/-- A sequence of operations, applied left to right. -/
def applyActions (game : GameOfLife) (l : List GAction) : GameOfLife :=
  l.foldl applyAction game

/-- Whether an operation is a generation step. -/
def isTick : GAction → Bool
  | .tickA => true
  | _ => false

/-- Spec-side definition (the claims' words): the sum of the states of
the 8 toroidal neighbors of `(x, y)`, the cell itself excluded, wrapping
with the same single-step boundary folding as the code. -/
def specNeighborCount8 (game : GameOfLife) (x y : Int) : Nat :=
  ([(-1, -1), (-1, 0), (-1, 1), (0, -1), (0, 1), (1, -1), (1, 0), (1, 1)] :
      List (Int × Int)).foldl
    (fun acc p =>
      acc + game.field.get (wrapY game (y + p.2)) (wrapX game (x + p.1))) 0

/-- Spec-side definition (the claims' words): the standard Conway rule —
a live cell survives with 2 or 3 live neighbors among the 8 excluding
itself, a dead cell is born with exactly 3 live neighbors. -/
def specConwayNext (game : GameOfLife) (x y : Int) : Cell :=
  if game.field.get y x = 1 then
    if specNeighborCount8 game x y = 2 ∨ specNeighborCount8 game x y = 3
    then 1 else 0
  else
    if specNeighborCount8 game x y = 3 then 1 else 0

/-- A 3×3 grid with live cells at `(0,0)`, `(2,0)` and `(0,1)` (grid
coordinates `(x, y)`; `fieldSet` takes `y` first). -/
def gTick : GameOfLife :=
  { width := 3
    height := 3
    evolution := true
    delay := 500
    field := fieldSet (fieldSet (fieldSet (makeNewMap 3 3) 0 0 1) 0 2 1) 1 0 1
    generation := 0
    stateWidth := 10 }

/-- A 3×3 grid whose center `(1,1)` is alive and has exactly two live
8-neighbors, `(0,1)` and `(2,1)`. -/
def gC1 : GameOfLife :=
  { width := 3
    height := 3
    evolution := false
    delay := 500
    field := fieldSet (fieldSet (fieldSet (makeNewMap 3 3) 1 1 1) 1 0 1) 1 2 1
    generation := 0
    stateWidth := 10 }

/-- A 4×4 grid with a single live cell at `(3,3)`, the fixture named by
the resize claim. -/
def g44 : GameOfLife :=
  { width := 4
    height := 4
    evolution := false
    delay := 500
    field := fieldSet (makeNewMap 4 4) 3 3 1
    generation := 0
    stateWidth := 10 }

/-! ## Basic lemmas about the map model -/

lemma fieldSet_hasRow (f : GoField) (y x : Int) (v : Cell) :
    (fieldSet f y x v).hasRow = f.hasRow := by
  unfold fieldSet
  split <;> rfl

lemma fieldSet_get (f : GoField) (y x : Int) (v : Cell) (y' x' : Int) :
    (fieldSet f y x v).get y' x' =
      if (y' = y ∧ x' = x) ∧ f.hasRow y then v else f.get y' x' := by
  by_cases hr : f.hasRow y <;> simp [fieldSet, hr]

/-! ## Generation counter (claim C6) -/

lemma applyAction_generation (game : GameOfLife) (a : GAction) :
    (applyAction game a).generation =
      game.generation + (if isTick a then 1 else 0) := by
  cases a <;>
    simp [applyAction, isTick, tick, reverseCell, resize, increaseDelay,
      decreaseDelay, switchMode] <;>
    split <;> rfl

lemma applyActions_generation :
    ∀ (l : List GAction) (game : GameOfLife),
      (applyActions game l).generation =
        game.generation + (l.countP isTick : Int) := by
  intro l
  induction l with
  | nil => intro game; simp [applyActions]
  | cons a l ih =>
    intro game
    have h1 : applyActions game (a :: l) = applyActions (applyAction game a) l :=
      rfl
    rw [h1, ih, applyAction_generation, List.countP_cons]
    cases h : isTick a <;> simp [h] <;> push_cast <;> omega

/-- Claim C6: the generation counter starts at `0` in `NewGame`, gains
exactly `1` on each `tick`, is untouched by `reverseCell` (toggle) and
`resize`, and over any operation sequence it is monotone and equals its
start plus the number of `tick` operations performed. -/
theorem generation_counts_ticks :
    (∀ sw sh : Int, (NewGame sw sh).generation = 0) ∧
    (∀ (game : GameOfLife) (l : List GAction),
      (applyActions game l).generation =
        game.generation + (l.countP isTick : Int) ∧
      game.generation ≤ (applyActions game l).generation) ∧
    (∀ game : GameOfLife, (tick game).1.generation = game.generation + 1) ∧
    (∀ (game : GameOfLife) (x y : Int),
      (reverseCell game x y).generation = game.generation) ∧
    (∀ (game : GameOfLife) (w h : Int),
      (resize game w h).generation = game.generation) := by
  refine ⟨fun _ _ => rfl,
    fun game l => ⟨applyActions_generation l game, ?_⟩,
    fun game => rfl, fun _ _ _ => rfl, fun _ _ _ => rfl⟩
  have h := applyActions_generation l game
  omega

/-! ## Tick-interval clamping (claim C7) -/

lemma applyActions_speed_aux :
    ∀ (l : List GAction) (game : GameOfLife), 0 ≤ game.delay →
      (∀ a ∈ l, a = GAction.speedUp ∨ a = GAction.speedDown) →
      0 ≤ (applyActions game l).delay ∧
      (applyActions game l).evolution = game.evolution := by
  intro l
  induction l with
  | nil => intro game h0 _; exact ⟨h0, rfl⟩
  | cons a l ih =>
    intro game h0 hl
    have ha := hl a (List.mem_cons_self a l)
    have hl' : ∀ b ∈ l, b = GAction.speedUp ∨ b = GAction.speedDown :=
      fun b hb => hl b (List.mem_cons_of_mem a hb)
    have h1 : applyActions game (a :: l) = applyActions (applyAction game a) l :=
      rfl
    rcases ha with ha | ha <;> subst ha <;> rw [h1]
    · have hd : 0 ≤ (applyAction game GAction.speedUp).delay := by
        simp [applyAction, increaseDelay]; omega
      have := ih (applyAction game GAction.speedUp) hd hl'
      exact ⟨this.1, this.2⟩
    · have hd : 0 ≤ (applyAction game GAction.speedDown).delay := by
        simp [applyAction, decreaseDelay]; split <;> omega
      have := ih (applyAction game GAction.speedDown) hd hl'
      refine ⟨this.1, this.2.trans ?_⟩
      simp [applyAction, decreaseDelay]

/-- Claim C7: for every nonnegative starting delay and every sequence of
speed-up/speed-down operations, the delay stays nonnegative (the
decrement is clamped at the floor `0`), the play/pause flag is never
touched, and each single action moves the delay by the fixed step `50`
(`+50` for speed-up, `-50` clamped at `0` for speed-down). -/
theorem delay_clamped_nonneg (game : GameOfLife) (l : List GAction)
    (h0 : 0 ≤ game.delay)
    (hl : ∀ a ∈ l, a = GAction.speedUp ∨ a = GAction.speedDown) :
    0 ≤ (applyActions game l).delay ∧
    (applyActions game l).evolution = game.evolution ∧
    (increaseDelay game).delay = game.delay + 50 ∧
    (decreaseDelay game).delay = max (game.delay - 50) 0 := by
  refine ⟨(applyActions_speed_aux l game h0 hl).1,
    (applyActions_speed_aux l game h0 hl).2, rfl, ?_⟩
  simp only [decreaseDelay]
  split <;> omega

/-- Witness for claim C7: ten consecutive speed-downs from the initial
delay `500` end at delay `0`, never below. -/
theorem delay_clamped_nonneg_witness :
    0 ≤ (NewGame 80 24).delay ∧
    (∀ a ∈ (List.replicate 10 GAction.speedDown),
      a = GAction.speedUp ∨ a = GAction.speedDown) ∧
    0 ≤ (applyActions (NewGame 80 24) (List.replicate 10 GAction.speedDown)).delay ∧
    (applyActions (NewGame 80 24) (List.replicate 10 GAction.speedDown)).evolution =
      (NewGame 80 24).evolution ∧
    (increaseDelay (NewGame 80 24)).delay = (NewGame 80 24).delay + 50 ∧
    (decreaseDelay (NewGame 80 24)).delay = max ((NewGame 80 24).delay - 50) 0 :=
  ⟨by decide, by decide,
    (delay_clamped_nonneg (NewGame 80 24) (List.replicate 10 GAction.speedDown)
      (by decide) (by decide)).1,
    (delay_clamped_nonneg (NewGame 80 24) (List.replicate 10 GAction.speedDown)
      (by decide) (by decide)).2.1,
    (delay_clamped_nonneg (NewGame 80 24) (List.replicate 10 GAction.speedDown)
      (by decide) (by decide)).2.2.1,
    (delay_clamped_nonneg (NewGame 80 24) (List.replicate 10 GAction.speedDown)
      (by decide) (by decide)).2.2.2⟩

/-! ## Toggle involution (claim C5) -/

/-- Claim C5: toggling the same in-range cell twice restores that cell's
state, and the grid read at any coordinate is unchanged by the two calls
combined.  The row-present hypothesis reflects that the Go write
`game.field[y][x] ^= 1` requires row `y` to be allocated (it is, for
every in-range row, by `makeNewMap`); without it the program would
panic rather than return. -/
theorem reverseCell_involutive (game : GameOfLife) (x y : Int)
    (hx : 0 ≤ x ∧ x < game.width) (hy : 0 ≤ y ∧ y < game.height)
    (hrow : game.field.hasRow y = true) :
    (reverseCell (reverseCell game x y) x y).field.get y x =
      game.field.get y x ∧
    ∀ y' x', (reverseCell (reverseCell game x y) x y).field.get y' x' =
      game.field.get y' x' := by
  have key : ∀ y' x',
      (reverseCell (reverseCell game x y) x y).field.get y' x' =
        game.field.get y' x' := by
    intro y' x'
    have hrow1 : (reverseCell game x y).field.hasRow y = true := by
      simp [reverseCell, fieldSet_hasRow, hrow]
    by_cases h : y' = y ∧ x' = x
    · simp only [reverseCell] at hrow1 ⊢
      rw [fieldSet_get, fieldSet_get, fieldSet_get]
      simp [h, hrow, hrow1, fieldSet_hasRow, Nat.xor_assoc]
    · simp only [reverseCell]
      simp [fieldSet_get, fieldSet_hasRow, hrow, h]
  exact ⟨key y x, key⟩

/-- Witness for claim C5 on a concrete empty 3×3 grid at cell `(1,1)`. -/
theorem reverseCell_involutive_witness :
    ((0:Int) ≤ 1 ∧ (1:Int) < (NewGame 13 3).width) ∧
    ((0:Int) ≤ 1 ∧ (1:Int) < (NewGame 13 3).height) ∧
    (NewGame 13 3).field.hasRow 1 = true ∧
    (reverseCell (reverseCell (NewGame 13 3) 1 1) 1 1).field.get 1 1 =
      (NewGame 13 3).field.get 1 1 :=
  ⟨by decide, by decide, by decide,
    (reverseCell_involutive (NewGame 13 3) 1 1 (by decide) (by decide)
      (by decide)).1⟩

/-! ## Pointer-click pre-validation (claim C8) -/

/-- Claim C8: for a `Button1` click at screen position `(x, y)` within
the current terminal bounds `(sw, sh)`, and with the session dimensions
as the program maintains them (`width = sw - 10`, `height = sh`,
`stateWidth = 10`, established by `NewGame` and by every `resize`), the
dispatch either ignores the click (inside the status margin) or invokes
the toggle with a coordinate inside `[0,width) × [0,height)`; it never
passes an out-of-range coordinate to `reverseCell`. -/
theorem dispatchMouse_inrange (game : GameOfLife) (sw sh x y : Int)
    (hgw : game.width = sw - 10) (hgh : game.height = sh)
    (hsw : game.stateWidth = 10)
    (hx : 0 ≤ x ∧ x < sw) (hy : 0 ≤ y ∧ y < sh) :
    (x < game.stateWidth → dispatchMouse game x y = game) ∧
    (game.stateWidth ≤ x →
      dispatchMouse game x y = reverseCell game (x - game.stateWidth) y ∧
      0 ≤ x - game.stateWidth ∧ x - game.stateWidth < game.width ∧
      0 ≤ y ∧ y < game.height) := by
  constructor
  · intro h
    simp only [dispatchMouse]
    rw [if_neg]
    omega
  · intro h
    refine ⟨?_, by omega, by omega, hy.1, by omega⟩
    simp only [dispatchMouse]
    rw [if_pos h]

/-- Witness for claim C8: a click at screen `(12, 3)` on a `20×5`
terminal toggles grid cell `(2, 3)`, which is in range. -/
theorem dispatchMouse_inrange_witness :
    (NewGame 20 5).width = 20 - 10 ∧ (NewGame 20 5).height = 5 ∧
    (NewGame 20 5).stateWidth = 10 ∧
    ((0:Int) ≤ 12 ∧ (12:Int) < 20) ∧ ((0:Int) ≤ 3 ∧ (3:Int) < 5) ∧
    (dispatchMouse (NewGame 20 5) 12 3 =
        reverseCell (NewGame 20 5) (12 - (NewGame 20 5).stateWidth) 3 ∧
      0 ≤ 12 - (NewGame 20 5).stateWidth ∧
      12 - (NewGame 20 5).stateWidth < (NewGame 20 5).width ∧
      (0:Int) ≤ 3 ∧ (3:Int) < (NewGame 20 5).height) :=
  ⟨rfl, rfl, rfl, by decide, by decide,
    (dispatchMouse_inrange (NewGame 20 5) 20 5 12 3 rfl rfl rfl (by decide)
      (by decide)).2 (by decide)⟩

/-! ## Dimensions after construction and resize (claim C9) -/

/-- Claim C9 (amended): after construction the dimensions are exactly
`terminal width - 10` and `terminal height`, and `resize` installs
exactly `w - stateWidth` and `h`; no lower-bound check exists anywhere,
so degenerate terminal sizes produce grid dimensions below `1`. -/
theorem dims_after_construct_resize :
    ∀ (sw sh w h : Int) (game : GameOfLife),
      (NewGame sw sh).width = sw - 10 ∧ (NewGame sw sh).height = sh ∧
      (resize game w h).width = w - game.stateWidth ∧
      (resize game w h).height = h := by
  intro sw sh w h game
  exact ⟨rfl, rfl, rfl, rfl⟩

/-- Counterexample to claim C9 as stated: constructing on a 10-column
terminal yields grid width `0` (not `≥ 1`), and a resize event with
terminal width `10` likewise installs width `0` — no rejection of
degenerate sizes happens anywhere. -/
theorem degenerate_dims_not_rejected :
    (NewGame 10 5).width = 0 ∧
    (resize (NewGame 80 24) 10 5).width = 0 ∧
    ¬ (1 ≤ (NewGame 10 5).width) := by decide

/-! ## The cell rule: self-inclusive 3×3 sum (claims C1, C10) -/

lemma wrapX_id (game : GameOfLife) (x : Int) (h1 : 0 ≤ x)
    (h2 : x < game.width) : wrapX game x = x := by
  unfold wrapX
  split_ifs <;> omega

lemma wrapY_id (game : GameOfLife) (y : Int) (h1 : 0 ≤ y)
    (h2 : y < game.height) : wrapY game y = y := by
  unfold wrapY
  split_ifs <;> omega

lemma nextCellState_selfInclusive (game : GameOfLife) (x y : Int)
    (hx : 0 ≤ x ∧ x < game.width) (hy : 0 ≤ y ∧ y < game.height) :
    nextCellState game x y =
      if specNeighborCount8 game x y + game.field.get y x = 3 then 1
      else if specNeighborCount8 game x y + game.field.get y x = 4 then
        game.field.get y x
      else 0 := by
  have hsum :
      (offs.map fun i => (offs.map fun j =>
        game.field.get (wrapY game (y + j)) (wrapX game (x + i))).sum).sum =
      specNeighborCount8 game x y + game.field.get y x := by
    simp only [offs, specNeighborCount8, List.map_cons, List.map_nil,
      List.sum_cons, List.sum_nil, List.foldl_cons, List.foldl_nil, add_zero]
    rw [wrapX_id game x hx.1 hx.2, wrapY_id game y hy.1 hy.2]
    ring
  simp only [nextCellState]
  rw [hsum]

/-- Counterexample to claim C1 as stated: on the 3×3 grid `gC1` the live
center cell `(1,1)` has exactly `2` live cells among its 8 toroidal
neighbors (self excluded); the claimed rule (count `3` ⇒ alive, count
`4` ⇒ unchanged, any other count ⇒ dead) demands the cell become dead,
but `nextCellState` makes it alive (the code's sum includes the cell
itself). -/
theorem nextCellState_selfcount_counterexample :
    specNeighborCount8 gC1 1 1 = 2 ∧ gC1.field.get 1 1 = 1 ∧
    nextCellState gC1 1 1 = 1 := by decide

/-- Claim C1 (amended): for every in-range cell of a grid with positive
dimensions, `nextCellState` is computed from the sum of the states of
the whole 3×3 toroidal block around the cell — the 8 neighbors plus the
cell itself, so an integer in `0..9` — wrapping indices at the
boundaries: a total of exactly `3` makes the cell alive, a total of
exactly `4` leaves the current state unchanged, any other total makes
the cell dead. -/
theorem nextCellState_selfcount_rule (game : GameOfLife) (x y : Int)
    (hx : 0 ≤ x ∧ x < game.width) (hy : 0 ≤ y ∧ y < game.height) :
    nextCellState game x y =
      if specNeighborCount8 game x y + game.field.get y x = 3 then 1
      else if specNeighborCount8 game x y + game.field.get y x = 4 then
        game.field.get y x
      else 0 :=
  nextCellState_selfInclusive game x y hx hy

/-- Witness for the amended claim C1 at the concrete grid `gC1`. -/
theorem nextCellState_selfcount_rule_witness :
    (((0:Int) ≤ 1 ∧ (1:Int) < gC1.width) ∧
      ((0:Int) ≤ 1 ∧ (1:Int) < gC1.height)) ∧
    nextCellState gC1 1 1 =
      (if specNeighborCount8 gC1 1 1 + gC1.field.get 1 1 = 3 then 1
       else if specNeighborCount8 gC1 1 1 + gC1.field.get 1 1 = 4 then
         gC1.field.get 1 1
       else 0) :=
  ⟨⟨by decide, by decide⟩,
    nextCellState_selfcount_rule gC1 1 1 (by decide) (by decide)⟩

/-- Claim C10: the rule the code implements — self-inclusive 3×3 toroidal
sum, total `3` ⇒ alive, total `4` ⇒ unchanged, else dead — agrees with
the standard Conway rule (live cell survives with 2 or 3 live
8-neighbors, dead cell is born with exactly 3) at every in-range cell of
a grid of dimensions at least 3×3 whose stored states are boolean. -/
theorem nextCellState_eq_conway (game : GameOfLife) (x y : Int)
    (h3w : 3 ≤ game.width) (h3h : 3 ≤ game.height)
    (hx : 0 ≤ x ∧ x < game.width) (hy : 0 ≤ y ∧ y < game.height)
    (hb : ∀ y' x', game.field.get y' x' ≤ 1) :
    nextCellState game x y = specConwayNext game x y := by
  rw [nextCellState_selfInclusive game x y hx hy]
  have hc := hb y x
  unfold specConwayNext
  rcases Nat.le_one_iff_eq_zero_or_eq_one.mp hc with h | h <;> rw [h] <;>
    split_ifs <;> first | rfl | omega | simp_all

/-- Witness for claim C10 on the concrete empty 3×3 grid. -/
theorem nextCellState_eq_conway_witness :
    (3 ≤ (NewGame 13 3).width ∧ 3 ≤ (NewGame 13 3).height) ∧
    (((0:Int) ≤ 1 ∧ (1:Int) < (NewGame 13 3).width) ∧
      ((0:Int) ≤ 1 ∧ (1:Int) < (NewGame 13 3).height)) ∧
    (∀ y' x', (NewGame 13 3).field.get y' x' ≤ 1) ∧
    nextCellState (NewGame 13 3) 1 1 = specConwayNext (NewGame 13 3) 1 1 :=
  ⟨⟨by decide, by decide⟩, ⟨by decide, by decide⟩,
    fun y' x' => by simp [NewGame, makeNewMap],
    nextCellState_eq_conway (NewGame 13 3) 1 1 (by decide) (by decide)
      (by decide) (by decide) (fun y' x' => by simp [NewGame, makeNewMap])⟩

/-! ## The off-by-one loop bound of `tick` (claims C2, C3) -/

/-- Claim C2 evidence (code bug): on the 3×3 grid `gTick`, one `tick`
repaints the coordinate `(3, 0)` whose column equals the grid width —
the change-set it reports is not the set of in-range coordinates whose
value changed, because the inner loop bound is `x <= game.width`. -/
theorem tick_repaints_out_of_range :
    ((3:Int), (0:Int)) ∈ (tick gTick).2 ∧ ¬ ((3:Int) < gTick.width) := by
  decide

/-- Claim C3 evidence (code bug): after one `tick` of the 3×3 grid
`gTick` the field holds a cell key — with a live state — at column `3`,
equal to the grid width, so state exists outside
`[0,width) × [0,height)`. -/
theorem tick_writes_column_width :
    (tick gTick).1.field.hasCell 0 3 = true ∧
    (tick gTick).1.field.get 0 3 = 1 ∧
    (tick gTick).1.width = 3 := by decide

/-! ## Resize: closed form of the bounded copy loops (claim C4) -/

lemma copyLoop_char (game : GameOfLife) (y : Int) (f : GoField)
    (hrow : f.hasRow y = true) :
    ∀ n : Nat,
      (copyLoop game y f ((List.range n).map (Nat.cast : Nat → Int))).2 =
        decide (0 < (n:Int) ∧ game.width < (n:Int)) ∧
      (copyLoop game y f ((List.range n).map (Nat.cast : Nat → Int))).1.hasRow =
        f.hasRow ∧
      ∀ y' x',
        (copyLoop game y f ((List.range n).map (Nat.cast : Nat → Int))).1.get y' x' =
          if y' = y ∧ 0 ≤ x' ∧ x' < (n:Int) ∧ x' ≤ max game.width 0
          then game.field.get y x' else f.get y' x' := by
  intro n
  induction n with
  | zero =>
    refine ⟨by simp [copyLoop], rfl, ?_⟩
    intro y' x'
    rw [if_neg]
    · rfl
    · rintro ⟨-, h1, h2, -⟩
      omega
  | succ n ih =>
    obtain ⟨ih1, ih2, ih3⟩ := ih
    have hfold : copyLoop game y f ((List.range (n+1)).map (Nat.cast : Nat → Int)) =
        copyStep game y
          (copyLoop game y f ((List.range n).map (Nat.cast : Nat → Int))) (n : Int) := by
      rw [List.range_succ, List.map_append]
      unfold copyLoop
      rw [List.foldl_append]
      rfl
    by_cases hfl : (0 : Int) < (n:Int) ∧ game.width < (n:Int)
    · have hflag : (copyLoop game y f ((List.range n).map (Nat.cast : Nat → Int))).2 =
          true := by
        rw [ih1, decide_eq_true_iff]
        exact hfl
      have hstep : copyLoop game y f ((List.range (n+1)).map (Nat.cast : Nat → Int)) =
          copyLoop game y f ((List.range n).map (Nat.cast : Nat → Int)) := by
        rw [hfold]
        unfold copyStep
        rw [hflag]
        rfl
      rw [hstep]
      refine ⟨?_, ih2, ?_⟩
      · rw [ih1, decide_eq_decide]
        omega
      · intro y' x'
        rw [ih3 y' x']
        refine if_congr ?_ rfl rfl
        constructor
        · rintro ⟨h1, h2, h3, h4⟩
          exact ⟨h1, h2, by omega, h4⟩
        · rintro ⟨h1, h2, h3, h4⟩
          exact ⟨h1, h2, by omega, h4⟩
    · have hflag : (copyLoop game y f ((List.range n).map (Nat.cast : Nat → Int))).2 =
          false := by
        rw [ih1, decide_eq_false_iff_not]
        exact hfl
      have hstep : copyLoop game y f ((List.range (n+1)).map (Nat.cast : Nat → Int)) =
          (fieldSet (copyLoop game y f ((List.range n).map (Nat.cast : Nat → Int))).1
             y (n : Int) (game.field.get y (n : Int)),
           decide (game.width ≤ (n : Int))) := by
        rw [hfold]
        unfold copyStep
        rw [hflag]
        rfl
      rw [hstep]
      refine ⟨?_, ?_, ?_⟩
      · simp only []
        rw [decide_eq_decide]
        omega
      · simp only []
        rw [fieldSet_hasRow, ih2]
      · intro y' x'
        simp only []
        rw [fieldSet_get, ih2, hrow]
        by_cases hc : y' = y ∧ x' = (n : Int)
        · rw [if_pos ⟨hc, rfl⟩, if_pos]
          · rw [hc.2]
          · exact ⟨hc.1, by omega, by omega, by omega⟩
        · rw [if_neg (by intro hh; exact hc hh.1), ih3 y' x']
          refine if_congr ?_ rfl rfl
          constructor
          · rintro ⟨h1, h2, h3, h4⟩
            exact ⟨h1, h2, by omega, h4⟩
          · rintro ⟨h1, h2, h3, h4⟩
            refine ⟨h1, h2, ?_, h4⟩
            have hne : x' ≠ (n : Int) := fun hh => hc ⟨h1, hh⟩
            omega

lemma resizeRow_char (game : GameOfLife) (w y : Int) (f : GoField)
    (hrow : f.hasRow y = true) :
    (resizeRow game w y f).hasRow = f.hasRow ∧
    ∀ y' x', (resizeRow game w y f).get y' x' =
      if y' = y ∧ 0 ≤ x' ∧ x' ≤ w ∧ x' ≤ max game.width 0
      then game.field.get y x' else f.get y' x' := by
  obtain ⟨h1, h2, h3⟩ := copyLoop_char game y f hrow (w+1).toNat
  unfold resizeRow intRange
  refine ⟨h2, ?_⟩
  intro y' x'
  rw [h3 y' x']
  refine if_congr ?_ rfl rfl
  constructor
  · rintro ⟨a, b, c, d⟩
    exact ⟨a, b, by omega, d⟩
  · rintro ⟨a, b, c, d⟩
    exact ⟨a, b, by omega, d⟩

lemma rowLoop_char (game : GameOfLife) (w' : Int) (f : GoField) :
    ∀ n : Nat, (∀ k : Int, 0 ≤ k → k < (n:Int) → f.hasRow k = true) →
      (rowLoop game w' f ((List.range n).map (Nat.cast : Nat → Int))).2 =
        decide (0 < (n:Int) ∧ game.height < (n:Int)) ∧
      (rowLoop game w' f ((List.range n).map (Nat.cast : Nat → Int))).1.hasRow =
        f.hasRow ∧
      ∀ y' x',
        (rowLoop game w' f ((List.range n).map (Nat.cast : Nat → Int))).1.get y' x' =
          if 0 ≤ y' ∧ y' < (n:Int) ∧ y' < game.height ∧
             0 ≤ x' ∧ x' ≤ w' ∧ x' ≤ max game.width 0
          then game.field.get y' x' else f.get y' x' := by
  intro n
  induction n with
  | zero =>
    intro hrows
    refine ⟨by simp [rowLoop], rfl, ?_⟩
    intro y' x'
    rw [if_neg]
    · rfl
    · rintro ⟨h1, h2, -⟩
      omega
  | succ n ih =>
    intro hrows
    have hrows' : ∀ k : Int, 0 ≤ k → k < (n:Int) → f.hasRow k = true :=
      fun k hk1 hk2 => hrows k hk1 (by omega)
    obtain ⟨ih1, ih2, ih3⟩ := ih hrows'
    have hfold :
        rowLoop game w' f ((List.range (n+1)).map (Nat.cast : Nat → Int)) =
        rowStep game w'
          (rowLoop game w' f ((List.range n).map (Nat.cast : Nat → Int)))
          (n : Int) := by
      rw [List.range_succ, List.map_append]
      unfold rowLoop
      rw [List.foldl_append]
      rfl
    by_cases hfl : (0 : Int) < (n:Int) ∧ game.height < (n:Int)
    · have hflag :
          (rowLoop game w' f ((List.range n).map (Nat.cast : Nat → Int))).2 =
            true := by
        rw [ih1, decide_eq_true_iff]
        exact hfl
      have hstep :
          rowLoop game w' f ((List.range (n+1)).map (Nat.cast : Nat → Int)) =
          rowLoop game w' f ((List.range n).map (Nat.cast : Nat → Int)) := by
        rw [hfold]
        unfold rowStep
        rw [hflag]
        rfl
      rw [hstep]
      refine ⟨?_, ih2, ?_⟩
      · rw [ih1, decide_eq_decide]
        omega
      · intro y' x'
        rw [ih3 y' x']
        refine if_congr ?_ rfl rfl
        constructor
        · rintro ⟨a, b, c, d, e, g⟩
          exact ⟨a, by omega, c, d, e, g⟩
        · rintro ⟨a, b, c, d, e, g⟩
          exact ⟨a, by omega, c, d, e, g⟩
    · have hflag :
          (rowLoop game w' f ((List.range n).map (Nat.cast : Nat → Int))).2 =
            false := by
        rw [ih1, decide_eq_false_iff_not]
        exact hfl
      by_cases hh : game.height ≤ (n : Int)
      · have hstep :
            rowLoop game w' f ((List.range (n+1)).map (Nat.cast : Nat → Int)) =
            ((rowLoop game w' f ((List.range n).map (Nat.cast : Nat → Int))).1,
              true) := by
          rw [hfold]
          unfold rowStep
          rw [hflag]
          simp [hh]
        rw [hstep]
        refine ⟨?_, ih2, ?_⟩
        · simp only []
          rw [eq_comm, decide_eq_true_iff]
          omega
        · intro y' x'
          simp only []
          rw [ih3 y' x']
          refine if_congr ?_ rfl rfl
          constructor
          · rintro ⟨a, b, c, d, e, g⟩
            exact ⟨a, by omega, c, d, e, g⟩
          · rintro ⟨a, b, c, d, e, g⟩
            exact ⟨a, by omega, c, d, e, g⟩
      · have hrown :
            (rowLoop game w' f ((List.range n).map (Nat.cast : Nat → Int))).1.hasRow
              (n : Int) = true := by
          rw [ih2]
          exact hrows (n : Int) (by omega) (by omega)
        obtain ⟨hr1, hr2⟩ := resizeRow_char game w' (n : Int)
          (rowLoop game w' f ((List.range n).map (Nat.cast : Nat → Int))).1 hrown
        have hstep :
            rowLoop game w' f ((List.range (n+1)).map (Nat.cast : Nat → Int)) =
            (resizeRow game w' (n : Int)
              (rowLoop game w' f ((List.range n).map (Nat.cast : Nat → Int))).1,
              false) := by
          rw [hfold]
          unfold rowStep
          rw [hflag]
          simp [hh]
        rw [hstep]
        refine ⟨?_, ?_, ?_⟩
        · simp only []
          rw [eq_comm, decide_eq_false_iff_not]
          omega
        · simp only []
          rw [hr1, ih2]
        · intro y' x'
          simp only []
          rw [hr2 y' x']
          by_cases hcy : y' = (n : Int)
          · subst hcy
            rw [ih3]
            by_cases hcx : 0 ≤ x' ∧ x' ≤ w' ∧ x' ≤ max game.width 0
            · rw [if_pos ⟨rfl, hcx.1, hcx.2.1, hcx.2.2⟩,
                if_pos ⟨by omega, by omega, by omega, hcx.1, hcx.2.1, hcx.2.2⟩]
            · rw [if_neg (fun hc => hcx ⟨hc.2.1, hc.2.2.1, hc.2.2.2⟩),
                if_neg (by rintro ⟨-, hlt, -⟩; omega),
                if_neg (fun hc => hcx ⟨hc.2.2.2.1, hc.2.2.2.2.1, hc.2.2.2.2.2⟩)]
          · rw [if_neg (fun hc => hcy hc.1), ih3 y' x']
            refine if_congr ?_ rfl rfl
            constructor
            · rintro ⟨a, b, c, d, e, g⟩
              exact ⟨a, by omega, c, d, e, g⟩
            · rintro ⟨a, b, c, d, e, g⟩
              refine ⟨a, ?_, c, d, e, g⟩
              have hne : y' ≠ (n : Int) := hcy
              omega

lemma resize_get (game : GameOfLife) (w h : Int) (y x : Int) :
    (resize game w h).field.get y x =
      if 0 ≤ y ∧ y < h ∧ y < game.height ∧
         0 ≤ x ∧ x ≤ w - game.stateWidth ∧ x ≤ max game.width 0
      then game.field.get y x else 0 := by
  have hrows : ∀ k : Int, 0 ≤ k → k < ((h.toNat : Nat) : Int) →
      (makeNewMap (w - game.stateWidth) h).hasRow k = true := by
    intro k hk1 hk2
    simp only [makeNewMap, decide_eq_true_iff]
    omega
  obtain ⟨h1, h2, h3⟩ := rowLoop_char game (w - game.stateWidth)
    (makeNewMap (w - game.stateWidth) h) h.toNat hrows
  show (rowLoop game (w - game.stateWidth) (makeNewMap (w - game.stateWidth) h)
      (intRange h)).1.get y x = _
  rw [show intRange h = (List.range h.toNat).map (Nat.cast : Nat → Int) from rfl]
  rw [h3 y x]
  simp only [makeNewMap]
  refine if_congr ?_ rfl rfl
  omega

/-- Claim C4: for any grid whose states live inside its declared bounds,
`resize` (called with the terminal dimensions `w × h`, hence new grid
dimensions `(w - stateWidth) × h`) preserves every cell in range of both
the old and the new dimensions bit-for-bit and leaves every other
in-range new-grid cell dead. -/
theorem resize_overlap_spec (game : GameOfLife) (w h x y : Int)
    (hwf : ∀ y' x',
      ¬(0 ≤ x' ∧ x' < game.width ∧ 0 ≤ y' ∧ y' < game.height) →
      game.field.get y' x' = 0)
    (hx : 0 ≤ x ∧ x < w - game.stateWidth) (hy : 0 ≤ y ∧ y < h) :
    (resize game w h).field.get y x =
      (if x < game.width ∧ y < game.height then game.field.get y x else 0) ∧
    (resize game w h).width = w - game.stateWidth ∧
    (resize game w h).height = h := by
  refine ⟨?_, rfl, rfl⟩
  rw [resize_get]
  split_ifs with h1 h2 h3
  · rfl
  · exact hwf y x (by omega)
  · exfalso
    omega
  · rfl

lemma g44_wf : ∀ y' x',
    ¬(0 ≤ x' ∧ x' < g44.width ∧ 0 ≤ y' ∧ y' < g44.height) →
    g44.field.get y' x' = 0 := by
  intro y' x' hout
  rw [show g44.width = 4 from rfl, show g44.height = 4 from rfl] at hout
  show (fieldSet (makeNewMap 4 4) 3 3 1).get y' x' = 0
  rw [fieldSet_get, if_neg]
  · rfl
  · rintro ⟨⟨hy3, hx3⟩, -⟩
    subst hy3
    subst hx3
    exact hout (by norm_num)

/-- Witness for claim C4: the 4×4 grid with one live cell at `(3,3)`,
resized on a 16-column, 6-row terminal (new grid 6×6): the overlap cell
`(3,3)` keeps its live state. -/
theorem resize_overlap_spec_witness :
    (∀ y' x',
      ¬(0 ≤ x' ∧ x' < g44.width ∧ 0 ≤ y' ∧ y' < g44.height) →
      g44.field.get y' x' = 0) ∧
    ((0:Int) ≤ 3 ∧ (3:Int) < 16 - g44.stateWidth) ∧
    ((0:Int) ≤ 3 ∧ (3:Int) < 6) ∧
    ((resize g44 16 6).field.get 3 3 =
      (if (3:Int) < g44.width ∧ (3:Int) < g44.height then g44.field.get 3 3
       else 0) ∧
     (resize g44 16 6).width = 16 - g44.stateWidth ∧
     (resize g44 16 6).height = 6) :=
  ⟨g44_wf, by decide, by decide,
    resize_overlap_spec g44 16 6 3 3 g44_wf (by decide) (by decide)⟩
